import Mathlib

/-!
Shallow embedding of the novaCrypto native processing pipeline.

Source layout: the repository ships `src/jni.rs` (the JNI boundary functions
`createNewContext`, `enableCrypto`, `destroyContext`, `debug`, `preallocSize`,
`process`) and `src/compression.rs` (the `CompressT` impl for `Context`, i.e.
`compress` and `decompress`).  The `Context` struct fields are read off the
literal constructed in `createNewContext`; the cipher (`encryption.rs`,
trait `CryptoT` with `init_state` and `process`) is not shipped and is
modelled from the spec below.  The external `libdeflater` codec is modelled
as an explicit interface (`DeflateLib`) together with a concrete executable
stand-in that obeys the DEFLATE-style contract the wrapper relies on.

Buffers are modelled as `List Nat` (one element per byte); machine integers
are `Nat`/`Int` with explicit two's-complement wraparound where the code
casts (`jint as usize`).
-/

/-- `n as usize` applied to a Java `jint`/`jlong`-sized signed value `n`:
sign-extension to 64 bits reinterpreted as unsigned, i.e. `n mod 2^64`. -/
def i32_as_usize (n : Int) : Nat := (n % (2 ^ 64 : Int)).toNat

/-- `Vec::resize(v, n, 0)`: truncate to `n` elements, or pad with zero bytes
up to `n` elements. -/
def vecResize (v : List Nat) (n : Nat) : List Nat :=
  if n ≤ v.length then v.take n else v ++ List.replicate (n - v.length) 0

/-- Self-delimiting base-128 length header used by the stand-in codec
(least significant group first, high bit marks a continuation byte). -/
def encVarint (n : Nat) : List Nat :=
  if n < 128 then [n]
  else (n % 128 + 128) :: encVarint (n / 128)
termination_by n
decreasing_by
  exact Nat.div_lt_self (by omega) (by omega)

/-- Parse a base-128 length header, returning the value and the rest of the
input; fails on truncated input. -/
def parseVarint : List Nat → Option (Nat × List Nat)
  | [] => none
  | b :: rest =>
    if b < 128 then some (b, rest)
    else
      match parseVarint rest with
      | none => none
      | some (m, rest2) => some (m * 128 + (b - 128), rest2)

/-- Interface of the external `libdeflater` crate as consumed by
`compression.rs`: a worst-case bound on compressed size, a compressor that
writes into a caller-provided buffer returning the number of bytes written
(or an error, `none`), and a decompressor doing the same.  The second
component of a successful result is the buffer after the write. -/
structure DeflateLib where
  deflate_compress_bound : Nat → Nat
  deflate_compress : List Nat → List Nat → Option (Nat × List Nat)
  deflate_decompress : List Nat → List Nat → Option (Nat × List Nat)

/-- Concrete executable stand-in for `libdeflater` satisfying the DEFLATE
contract the wrapper relies on: compression is total into any buffer at
least as large as the bound, and decompression fails (rather than
truncating or overrunning) on malformed input or on an output buffer
smaller than the true decompressed size. -/
def standInDeflate : DeflateLib where
  deflate_compress_bound := fun n => (encVarint n).length + n
  deflate_compress := fun data buf =>
    let out := encVarint data.length ++ data
    if out.length ≤ buf.length then some (out.length, out ++ buf.drop out.length)
    else none
  deflate_decompress := fun data buf =>
    match parseVarint data with
    | none => none
    | some (n, payload) =>
      if payload.length = n ∧ n ≤ buf.length then some (n, payload ++ buf.drop n)
      else none

/-- The `Context` struct, fields exactly as constructed in
`createNewContext` (`src/jni.rs`): mode toggle, debug flag, cipher counter,
optional key material, optional cipher state (`aes`, modelled as the derived
key/IV pair), digest accumulator (modelled as the list of absorbed bytes),
decompression preallocation hint, and the two mutually exclusive codec
handles (modelled as presence markers). -/
structure Context where
  encryption_mode_toggle : Bool
  debug : Bool
  counter : Nat
  key : Option (List Nat)
  aes : Option (List Nat × List Nat)
  digest : List Nat
  prealloc_size : Nat
  compressor : Option Unit
  decompressor : Option Unit
deriving DecidableEq

/-- `CompressT::decompress` from `src/compression.rs`: allocate
`vec![0u8; prealloc_size]`, run the codec into it; on codec error return
`Vec::with_capacity(0)` (the empty result), on success resize the buffer to
the number of bytes written.  `none` models the `unwrap` panic when the
decompressor handle is absent. -/
def Context.decompress (lib : DeflateLib) (ctx : Context) (data : List Nat)
    (prealloc_size : Nat) : Option (List Nat) :=
  match ctx.decompressor with
  | none => none
  | some _ =>
    let decoded_data := List.replicate prealloc_size 0
    match lib.deflate_decompress data decoded_data with
    | none => some []
    | some (written, buf) => some (vecResize buf written)

/-- `CompressT::compress` from `src/compression.rs`: size the output buffer
by `deflate_compress_bound(size as usize)`, run the codec, resize to the
actual produced length.  `none` models the two `unwrap` panics (absent
compressor handle, codec error). -/
def Context.compress (lib : DeflateLib) (ctx : Context) (data : List Nat)
    (size : Int) : Option (List Nat) :=
  match ctx.compressor with
  | none => none
  | some _ =>
    let compressed_size := lib.deflate_compress_bound (i32_as_usize size)
    let compressed_data := List.replicate compressed_size 0
    match lib.deflate_compress data compressed_data with
    | none => none
    | some (actual_sz, buf) => some (vecResize buf actual_sz)

/-- Fold used by the spec-modelled keystream and tag. -/
def mixStep (a b : Nat) : Nat := a * 131 + b + 17

/-- Fold a byte list into an accumulator. -/
def mixList (l : List Nat) (acc : Nat) : Nat := l.foldl mixStep acc

/-- Modelled from the spec: `encryption.rs` is not under `src/`.  Keystream
byte `i` of the cipher call whose counter is `ctr`, derived from the key,
the IV and the counter so that every call uses a distinct cipher input
under the same key (spec section 4.2, step 1). -/
def keystream (key iv : List Nat) (ctr i : Nat) : Nat :=
  mixList iv (mixList key (ctr * 8191 + i * 127 + 1)) % 256

/-- XOR a byte list against a keystream, starting at stream index `i`. -/
def xorKs (f : Nat → Nat) : Nat → List Nat → List Nat
  | _, [] => []
  | i, b :: rest => (b ^^^ f i) :: xorKs f (i + 1) rest

/-- Modelled from the spec: `encryption.rs` is not under `src/`.  The
8-byte integrity tag the scheme appends on encode and checks on decode
(spec section 4.2: the keyed transform updates a digest and decode fails
on an authentication failure). -/
def macTag (key iv : List Nat) (ctr : Nat) (data : List Nat) : List Nat :=
  (List.range 8).map
    (fun i => mixList data (mixList iv (mixList key (ctr * 257 + i * 31 + 3))) % 256)

/-- Modelled from the spec: `encryption.rs` (`CryptoT::init_state`) is not
under `src/`.  Initialization derives the cipher state and key from the
given material (spec section 4.4 `initialize`). -/
def Context.init_state (ctx : Context) (key iv : List Nat) : Context :=
  { ctx with key := some key, aes := some (key, iv) }

/-- Context state after one cipher invocation: the counter advanced by one
and the digest accumulator extended by the processed bytes. -/
def bumpCtx (ctx : Context) (data : List Nat) : Context :=
  { ctx with
    counter := ctx.counter + 1
    digest := ctx.digest ++ data }

/-- Modelled from the spec: `encryption.rs` (`CryptoT::process`) is not
under `src/`.  One cipher invocation (spec section 4.2): derive the per-call
cipher input from the current counter and advance the counter by one; run
the keyed transform, updating the digest; on encode, append the integrity
tag; on decode, check and strip the tag and return the empty result on any
authentication failure.  `none` models the use-before-initialize caller
error (spec sections 3 and 6). -/
def Context.process (ctx : Context) (data : List Nat) :
    Option (List Nat × Context) :=
  match ctx.key, ctx.aes with
  | some _, some (k, iv) =>
    let ctr := ctx.counter
    let ctx2 := bumpCtx ctx data
    if ctx.encryption_mode_toggle then
      some (xorKs (keystream k iv ctr) 0 (data ++ macTag k iv ctr data), ctx2)
    else
      let p := xorKs (keystream k iv ctr) 0 data
      if p.length < 8 then some ([], ctx2)
      else
        let body := p.take (p.length - 8)
        if p.drop (p.length - 8) = macTag k iv ctr body then some (body, ctx2)
        else some ([], ctx2)
  | _, _ => none

/-- `Java_net_novatech_library_crypto_NativeProcessor_createNewContext`
(`src/jni.rs`): construct the context with the literal field values of the
source, then populate exactly one codec handle according to the mode. -/
def createNewContext (encryption_mode_toggle : Bool) : Context :=
  let ctx : Context := {
    encryption_mode_toggle := encryption_mode_toggle
    debug := false
    counter := 0
    key := none
    aes := none
    digest := []
    prealloc_size := 2 * 1024 * 1024
    compressor := none
    decompressor := none }
  if ctx.encryption_mode_toggle then { ctx with compressor := some () }
  else { ctx with decompressor := some () }

/-- `Java_net_novatech_library_crypto_NativeProcessor_enableCrypto`
(`src/jni.rs`): converts the key and IV byte arrays and calls
`init_state`. -/
def enableCrypto (ctx : Context) (key iv : List Nat) : Context :=
  ctx.init_state key iv

/-- `Java_io_gomint_crypto_NativeProcessor_debug` (`src/jni.rs`): store the
debug flag. -/
def debugCall (ctx : Context) (debug_mode : Bool) : Context :=
  { ctx with debug := debug_mode }

/-- `Java_net_novatech_library_crypto_NativeProcessor_preallocSize`
(`src/jni.rs`): `context.prealloc_size = prealloc_size as usize`, where the
argument is a signed 32-bit `jint`. -/
def preallocSize (ctx : Context) (prealloc_size : Int) : Context :=
  { ctx with prealloc_size := i32_as_usize prealloc_size }

/-- The `SizedMemoryPointer` descriptor handed back across the boundary:
either the literal null descriptor (`create_jvm_fat_pointer(env, 0, 0)`,
address 0 and length 0) or a freshly produced buffer whose address is the
vector's (never null) data pointer and whose length is the vector length. -/
inductive FatPointer where
  | nullPtr : FatPointer
  | buf : List Nat → FatPointer
deriving DecidableEq

/-- Caller-visible length field of a returned descriptor. -/
def FatPointer.size : FatPointer → Nat
  | .nullPtr => 0
  | .buf l => l.length

/-- `Java_net_novatech_library_crypto_NativeProcessor_process`
(`src/jni.rs`), generic in the cipher call and the codec library: on encode,
compress (passing the input size) then run the cipher and return whatever
it produced; on decode, run the cipher, short-circuit to the null
descriptor if it returned the empty result, otherwise decompress with the
context's `prealloc_size`.  The debug branches duplicate the computation of
the non-debug branches exactly as in the source (their timing measurement
and printing have no data flow into the result).  `none` models a panic. -/
def nativeProcessGen (ciph : Context → List Nat → Option (List Nat × Context))
    (lib : DeflateLib) (ctx : Context) (data : List Nat) :
    Option (FatPointer × Context) :=
  let size : Int := Int.ofNat data.length
  if ctx.encryption_mode_toggle then
    if ctx.debug then
      match Context.compress lib ctx data size with
      | none => none
      | some compressed =>
        match ciph ctx compressed with
        | none => none
        | some (processed, ctx2) => some (FatPointer.buf processed, ctx2)
    else
      match Context.compress lib ctx data size with
      | none => none
      | some compressed =>
        match ciph ctx compressed with
        | none => none
        | some (processed, ctx2) => some (FatPointer.buf processed, ctx2)
  else
    if ctx.debug then
      match ciph ctx data with
      | none => none
      | some (decrypted, ctx2) =>
        if decrypted.length = 0 then some (FatPointer.nullPtr, ctx2)
        else
          match Context.decompress lib ctx2 decrypted ctx2.prealloc_size with
          | none => none
          | some decompressed => some (FatPointer.buf decompressed, ctx2)
    else
      match ciph ctx data with
      | none => none
      | some (decrypted, ctx2) =>
        if decrypted.length = 0 then some (FatPointer.nullPtr, ctx2)
        else
          match Context.decompress lib ctx2 decrypted ctx2.prealloc_size with
          | none => none
          | some decompressed => some (FatPointer.buf decompressed, ctx2)

/-- The shipped pipeline: the spec-modelled cipher with the stand-in
codec. -/
def nativeProcess (ctx : Context) (data : List Nat) :
    Option (FatPointer × Context) :=
  nativeProcessGen Context.process standInDeflate ctx data

/-- Address of the context most recently leaked into the heap
(`mem::forget` in `createNewContext` hands the caller the raw address). -/
def freshAddr (heap : List (Nat × Context)) : Nat :=
  (heap.map Prod.fst).foldl max 0 + 1

/-- Look a handle up in the heap of live native contexts. -/
def lookupCtx : List (Nat × Context) → Nat → Option Context
  | [], _ => none
  | (a, c) :: rest, b => if a = b then some c else lookupCtx rest b

/-- Heap-level view of `createNewContext`: the boxed context is
`mem::forget`-ten, so it stays allocated and its raw address is returned as
the opaque handle. -/
def createNewContextCall (heap : List (Nat × Context)) (m : Bool) :
    List (Nat × Context) × Nat :=
  let a := freshAddr heap
  ((a, createNewContext m) :: heap, a)

/-- `Java_net_novatech_library_crypto_NativeProcessor_destroyContext`
(`src/jni.rs`): `let raw_ptr = ctx as *mut Context; mem::drop(raw_ptr)`.
Dropping a raw pointer drops the `Copy` pointer value itself and leaves the
pointee untouched: no allocation is reclaimed, so the heap is unchanged. -/
def destroyContext (heap : List (Nat × Context)) (_a : Nat) :
    List (Nat × Context) :=
  heap

/-- Invariant of claim C8: exactly one codec handle is populated and it is
the one matching the mode. -/
def codecMatchesMode (ctx : Context) : Prop :=
  (ctx.encryption_mode_toggle = true →
    ctx.compressor = some () ∧ ctx.decompressor = none) ∧
  (ctx.encryption_mode_toggle = false →
    ctx.compressor = none ∧ ctx.decompressor = some ())

instance (ctx : Context) : Decidable (codecMatchesMode ctx) := by
  unfold codecMatchesMode
  infer_instance

/-- Mode and codec-handle fields of `a` agree with those of `b`. -/
def sameModeAndCodecs (a b : Context) : Prop :=
  a.encryption_mode_toggle = b.encryption_mode_toggle ∧
  a.compressor = b.compressor ∧ a.decompressor = b.decompressor

instance (a b : Context) : Decidable (sameModeAndCodecs a b) := by
  unfold sameModeAndCodecs
  infer_instance

/-- A codec library never reports more bytes written than the buffer holds
and never changes the buffer length (the `libdeflater` write contract). -/
def decompressBounded (lib : DeflateLib) : Prop :=
  ∀ data buf n buf2, lib.deflate_decompress data buf = some (n, buf2) →
    n ≤ buf.length ∧ buf2.length = buf.length

/-- Encode-mode context used by concrete witnesses. -/
def ctxEnc0 : Context := enableCrypto (createNewContext true) [1, 2] [3]

/-- Decode-mode context used by concrete witnesses. -/
def ctxDec0 : Context := enableCrypto (createNewContext false) [1, 2] [3]

/-! ## Helper lemmas -/

theorem xorKs_length (f : Nat → Nat) (i : Nat) (l : List Nat) :
    (xorKs f i l).length = l.length := by
  induction l generalizing i with
  | nil => rfl
  | cons b rest ih => simp [xorKs, ih]

theorem xorKs_xorKs (f : Nat → Nat) (i : Nat) (l : List Nat) :
    xorKs f i (xorKs f i l) = l := by
  induction l generalizing i with
  | nil => rfl
  | cons b rest ih =>
    simp only [xorKs, ih]
    rw [Nat.xor_assoc, Nat.xor_self, Nat.xor_zero]

theorem macTag_length (k iv : List Nat) (ctr : Nat) (d : List Nat) :
    (macTag k iv ctr d).length = 8 := by
  simp [macTag]

theorem encVarint_length_pos (n : Nat) : 0 < (encVarint n).length := by
  rw [encVarint]
  split <;> simp

theorem parseVarint_encVarint (n : Nat) (rest : List Nat) :
    parseVarint (encVarint n ++ rest) = some (n, rest) := by
  induction n using Nat.strong_induction_on with
  | _ n ih =>
    rw [encVarint]
    by_cases h : n < 128
    · simp [h, parseVarint]
    · have hrec := ih (n / 128) (Nat.div_lt_self (by omega) (by omega))
      simp only [if_neg h, List.cons_append, parseVarint]
      rw [if_neg (by omega), hrec]
      show some (n / 128 * 128 + (n % 128 + 128 - 128), rest) = some (n, rest)
      have h2 : n / 128 * 128 + (n % 128 + 128 - 128) = n := by omega
      rw [h2]

theorem i32_as_usize_ofNat (n : Nat) (h : n < 2 ^ 64) :
    i32_as_usize (Int.ofNat n) = n := by
  show ((n : Int) % (2 ^ 64 : Int)).toNat = n
  rw [Int.emod_eq_of_lt (by positivity) (by exact_mod_cast h)]
  simp

theorem process_encode (ctx : Context) (kw k v : List Nat) (d : List Nat)
    (ht : ctx.encryption_mode_toggle = true)
    (hk : ctx.key = some kw) (ha : ctx.aes = some (k, v)) :
    Context.process ctx d =
      some (xorKs (keystream k v ctx.counter) 0 (d ++ macTag k v ctx.counter d),
        bumpCtx ctx d) := by
  rw [Context.process, hk, ha]
  simp [ht]

theorem process_decode_roundtrip (ctx : Context) (kw k v : List Nat)
    (d : List Nat) (c : Nat)
    (ht : ctx.encryption_mode_toggle = false)
    (hk : ctx.key = some kw) (ha : ctx.aes = some (k, v))
    (hc : ctx.counter = c) :
    Context.process ctx (xorKs (keystream k v c) 0 (d ++ macTag k v c d)) =
      some (d, bumpCtx ctx (xorKs (keystream k v c) 0 (d ++ macTag k v c d))) := by
  rw [Context.process, hk, ha]
  simp only [ht, Bool.false_eq_true, if_false]
  rw [hc, xorKs_xorKs]
  have hlen : (d ++ macTag k v c d).length = d.length + 8 := by
    simp [macTag_length]
  rw [if_neg (by omega)]
  have hsub : (d ++ macTag k v c d).length - 8 = d.length := by omega
  rw [hsub, List.take_left, List.drop_left]
  simp

theorem process_shape (ctx : Context) (data : List Nat) :
    Context.process ctx data = none ∨
    ∃ o, Context.process ctx data = some (o, bumpCtx ctx data) := by
  rw [Context.process]
  rcases hk : ctx.key with _ | kw <;> rcases ha : ctx.aes with _ | ⟨k, v⟩
  · exact Or.inl rfl
  · exact Or.inl rfl
  · exact Or.inl rfl
  · right
    simp only []
    split
    · exact ⟨_, rfl⟩
    · split
      · exact ⟨_, rfl⟩
      · split
        · exact ⟨_, rfl⟩
        · exact ⟨_, rfl⟩

theorem process_some_ctx (ctx : Context) (data o : List Nat) (c2 : Context)
    (h : Context.process ctx data = some (o, c2)) :
    c2 = bumpCtx ctx data := by
  rcases process_shape ctx data with hs | ⟨o2, hs⟩
  · rw [hs] at h
    exact Option.noConfusion h
  · rw [hs] at h
    simp only [Option.some.injEq, Prod.mk.injEq] at h
    exact h.2.symm

theorem standIn_compress_exact (data buf : List Nat)
    (h : buf.length = (encVarint data.length).length + data.length) :
    standInDeflate.deflate_compress data buf =
      some ((encVarint data.length ++ data).length,
        encVarint data.length ++ data) := by
  simp only [standInDeflate]
  rw [if_pos (by simp [h])]
  rw [List.drop_eq_nil_of_le (by simp [h])]
  rw [List.append_nil]

theorem compress_standIn (ctx : Context) (data : List Nat)
    (hc : ctx.compressor = some ()) (hsz : data.length < 2 ^ 64) :
    Context.compress standInDeflate ctx data (Int.ofNat data.length) =
      some (encVarint data.length ++ data) := by
  rw [Context.compress, hc]
  simp only [i32_as_usize_ofNat data.length hsz]
  have hbound : standInDeflate.deflate_compress_bound data.length =
      (encVarint data.length).length + data.length := rfl
  rw [hbound]
  rw [standIn_compress_exact data _ (by simp)]
  show some (vecResize (encVarint data.length ++ data)
    (encVarint data.length ++ data).length) = _
  unfold vecResize
  rw [if_pos (le_refl _)]
  rw [List.take_length]

theorem decompress_standIn_ok (ctx : Context) (n cap : Nat)
    (payload : List Nat) (hd : ctx.decompressor = some ())
    (hlen : payload.length = n) (hcap : n ≤ cap) :
    Context.decompress standInDeflate ctx (encVarint n ++ payload) cap =
      some payload := by
  rw [Context.decompress, hd]
  simp only [standInDeflate, parseVarint_encVarint]
  rw [if_pos (by simp [hlen, hcap])]
  simp only [Option.some.injEq]
  unfold vecResize
  rw [if_pos (by simp [hlen])]
  rw [← hlen, List.take_left]

theorem decompress_standIn_small (ctx : Context) (n cap : Nat)
    (payload : List Nat) (hd : ctx.decompressor = some ())
    (hlen : payload.length = n) (hcap : cap < n) :
    Context.decompress standInDeflate ctx (encVarint n ++ payload) cap =
      some [] := by
  rw [Context.decompress, hd]
  simp only [standInDeflate, parseVarint_encVarint]
  rw [if_neg (by simp [hlen]; omega)]

theorem standIn_decompressBounded : decompressBounded standInDeflate := by
  intro data buf n buf2 h
  simp only [standInDeflate] at h
  rcases hp : parseVarint data with _ | ⟨m, payload⟩ <;> rw [hp] at h <;>
    simp only [] at h
  · exact Option.noConfusion h
  · by_cases hcond : payload.length = m ∧ m ≤ buf.length
    · rw [if_pos hcond] at h
      simp only [Option.some.injEq, Prod.mk.injEq] at h
      constructor
      · omega
      · rw [← h.2]
        simp
        omega
    · rw [if_neg hcond] at h
      exact Option.noConfusion h

theorem bumpCtx_fields (ctx : Context) (data : List Nat) :
    (bumpCtx ctx data).encryption_mode_toggle = ctx.encryption_mode_toggle ∧
    (bumpCtx ctx data).debug = ctx.debug ∧
    (bumpCtx ctx data).key = ctx.key ∧
    (bumpCtx ctx data).aes = ctx.aes ∧
    (bumpCtx ctx data).prealloc_size = ctx.prealloc_size ∧
    (bumpCtx ctx data).compressor = ctx.compressor ∧
    (bumpCtx ctx data).decompressor = ctx.decompressor := by
  simp [bumpCtx]

theorem nativeProcessGen_encode
    (ciph : Context → List Nat → Option (List Nat × Context))
    (lib : DeflateLib) (ctx : Context) (data : List Nat)
    (ht : ctx.encryption_mode_toggle = true) :
    nativeProcessGen ciph lib ctx data =
      (Context.compress lib ctx data (Int.ofNat data.length)).bind
        (fun compressed => (ciph ctx compressed).map
          (fun pr => (FatPointer.buf pr.1, pr.2))) := by
  rw [nativeProcessGen]
  simp only [ht, if_true]
  cases hdbg : ctx.debug <;>
    simp only [Bool.false_eq_true, if_true, if_false] <;>
    rcases Context.compress lib ctx data (Int.ofNat data.length) with _ | compressed <;>
    simp only [Option.bind] <;>
    rcases hpp : ciph ctx compressed with _ | ⟨o, c2⟩ <;>
    simp [hpp]

theorem nativeProcessGen_decode
    (ciph : Context → List Nat → Option (List Nat × Context))
    (lib : DeflateLib) (ctx : Context) (data : List Nat)
    (ht : ctx.encryption_mode_toggle = false) :
    nativeProcessGen ciph lib ctx data =
      match ciph ctx data with
      | none => none
      | some (decrypted, ctx2) =>
        if decrypted.length = 0 then some (FatPointer.nullPtr, ctx2)
        else (Context.decompress lib ctx2 decrypted ctx2.prealloc_size).map
          (fun r => (FatPointer.buf r, ctx2)) := by
  rw [nativeProcessGen]
  simp only [ht, Bool.false_eq_true, if_false]
  cases hdbg : ctx.debug <;>
    simp only [Bool.false_eq_true, if_true, if_false] <;>
    rcases hpp : ciph ctx data with _ | ⟨decrypted, ctx2⟩ <;>
    simp only [] <;>
    by_cases hz : decrypted.length = 0 <;>
    simp only [hz, if_true, if_false, eq_self_iff_true] <;>
    rcases hdc : Context.decompress lib ctx2 decrypted ctx2.prealloc_size with _ | r <;>
    simp [hdc]

theorem compress_debug (lib : DeflateLib) (ctx : Context) (b : Bool)
    (data : List Nat) (size : Int) :
    Context.compress lib { ctx with debug := b } data size =
      Context.compress lib ctx data size := rfl

theorem decompress_debug (lib : DeflateLib) (ctx : Context) (b : Bool)
    (data : List Nat) (cap : Nat) :
    Context.decompress lib { ctx with debug := b } data cap =
      Context.decompress lib ctx data cap := rfl

theorem process_debug (ctx : Context) (b : Bool) (data : List Nat) :
    Context.process { ctx with debug := b } data =
      Option.map (fun r => (r.1, { r.2 with debug := b }))
        (Context.process ctx data) := by
  rcases ctx with ⟨t, d0, c, k, a, dg, pz, cp, dc⟩
  rcases k with _ | kw
  · rfl
  · rcases a with _ | ⟨kk, vv⟩
    · rfl
    · rcases t with _ | _
      · simp only [Context.process, bumpCtx]
        split_ifs <;> rfl
      · rfl

theorem process_total (ctx : Context) (kw k v : List Nat) (data : List Nat)
    (hk : ctx.key = some kw) (ha : ctx.aes = some (k, v)) :
    ∃ o, Context.process ctx data = some (o, bumpCtx ctx data) := by
  rw [Context.process, hk, ha]
  simp only []
  split
  · exact ⟨_, rfl⟩
  · split
    · exact ⟨_, rfl⟩
    · split
      · exact ⟨_, rfl⟩
      · exact ⟨_, rfl⟩

theorem decompress_total (lib : DeflateLib) (ctx : Context) (data : List Nat)
    (cap : Nat) (hd : ctx.decompressor = some ()) :
    ∃ r, Context.decompress lib ctx data cap = some r := by
  rw [Context.decompress, hd]
  simp only []
  rcases lib.deflate_decompress data (List.replicate cap 0) with _ | ⟨w, buf⟩
  · exact ⟨_, rfl⟩
  · exact ⟨_, rfl⟩

theorem bumpCtx_same (ctx : Context) (data : List Nat) :
    sameModeAndCodecs (bumpCtx ctx data) ctx := ⟨rfl, rfl, rfl⟩

theorem codecMatchesMode_of_same (a ctx : Context)
    (hs : sameModeAndCodecs a ctx) (h : codecMatchesMode ctx) :
    codecMatchesMode a := by
  rcases hs with ⟨h1, h2, h3⟩
  unfold codecMatchesMode at h ⊢
  rw [h1, h2, h3]
  exact h

theorem nativeProcess_post (ctx : Context) (data : List Nat) (fp : FatPointer)
    (ctx2 : Context) (h : nativeProcess ctx data = some (fp, ctx2)) :
    sameModeAndCodecs ctx2 ctx := by
  rcases ht : ctx.encryption_mode_toggle
  case false =>
    rw [nativeProcess, nativeProcessGen_decode _ _ _ _ ht] at h
    rcases hpp : Context.process ctx data with _ | ⟨d, c2⟩ <;> rw [hpp] at h
    · exact Option.noConfusion h
    · have hc2 : c2 = bumpCtx ctx data := process_some_ctx ctx data d c2 hpp
      simp only [] at h
      by_cases hz : d.length = 0
      · rw [if_pos hz] at h
        simp only [Option.some.injEq, Prod.mk.injEq] at h
        rw [← h.2, hc2]
        exact bumpCtx_same ctx data
      · rw [if_neg hz] at h
        rcases hdc : Context.decompress standInDeflate c2 d c2.prealloc_size
          with _ | r <;> rw [hdc] at h
        · exact Option.noConfusion h
        · simp only [Option.map, Option.some.injEq, Prod.mk.injEq] at h
          rw [← h.2, hc2]
          exact bumpCtx_same ctx data
  case true =>
    rw [nativeProcess, nativeProcessGen_encode _ _ _ _ ht] at h
    rcases hcp : Context.compress standInDeflate ctx data (Int.ofNat data.length)
      with _ | cd <;> rw [hcp] at h
    · exact Option.noConfusion h
    · simp only [Option.bind] at h
      rcases hpp : Context.process ctx cd with _ | ⟨o, c2⟩ <;> rw [hpp] at h
      · exact Option.noConfusion h
      · have hc2 : c2 = bumpCtx ctx cd := process_some_ctx ctx cd o c2 hpp
        simp only [Option.map, Option.some.injEq, Prod.mk.injEq] at h
        rw [← h.2, hc2]
        exact bumpCtx_same ctx cd

/-! ## Claim theorems -/

/-- Claim C2 (code bug): `destroyContext` executes
`mem::drop(raw_ptr)`, which drops only the `Copy` raw-pointer value, so
after a create followed by a destroy of the returned handle the context —
with its key material, cipher/digest state and codec handle — is still
live in the heap: nothing is reclaimed by the call. -/
theorem c2_destroy_reclaims_nothing (heap : List (Nat × Context)) (m : Bool) :
    lookupCtx
      (destroyContext (createNewContextCall heap m).1
        (createNewContextCall heap m).2)
      (createNewContextCall heap m).2 = some (createNewContext m) := by
  show lookupCtx ((freshAddr heap, createNewContext m) :: heap) (freshAddr heap)
    = some (createNewContext m)
  rw [lookupCtx]
  rw [if_pos rfl]

/-- Claim C4: on a Decode-mode context, when the cipher step of a process
call returns the empty result the call short-circuits to the null/zero
descriptor immediately — and it does so for every codec library alike, so
decompression is never invoked. -/
theorem c4_decode_short_circuit (lib : DeflateLib) (ctx ctx2 : Context)
    (data : List Nat)
    (ht : ctx.encryption_mode_toggle = false)
    (hp : Context.process ctx data = some ([], ctx2)) :
    nativeProcessGen Context.process lib ctx data =
      some (FatPointer.nullPtr, ctx2) ∧
    nativeProcess ctx data = some (FatPointer.nullPtr, ctx2) := by
  have h1 : ∀ l : DeflateLib, nativeProcessGen Context.process l ctx data =
      some (FatPointer.nullPtr, ctx2) := by
    intro l
    rw [nativeProcessGen_decode _ _ _ _ ht, hp]
    rfl
  exact ⟨h1 lib, h1 standInDeflate⟩

/-- Witness for C4: decoding a 2-byte input (shorter than the integrity
tag) makes the spec-modelled cipher return the empty result, and the call
returns the null descriptor. -/
theorem c4_witness :
    nativeProcess ctxDec0 [1, 2] =
      some (FatPointer.nullPtr, bumpCtx ctxDec0 [1, 2]) :=
  (c4_decode_short_circuit standInDeflate ctxDec0 (bumpCtx ctxDec0 [1, 2])
    [1, 2] rfl (by decide)).2

/-- Claim C7: on an Encode-mode context a process call is exactly compress
(receiving the input size) followed by the cipher over the compressed
bytes, for every cipher and codec; there is no short-circuit on this path:
an empty cipher result is returned to the caller like any success. -/
theorem c7_encode_order
    (ciph : Context → List Nat → Option (List Nat × Context))
    (lib : DeflateLib) (ctx : Context) (data : List Nat)
    (ht : ctx.encryption_mode_toggle = true) :
    nativeProcessGen ciph lib ctx data =
      (Context.compress lib ctx data (Int.ofNat data.length)).bind
        (fun compressed => (ciph ctx compressed).map
          (fun pr => (FatPointer.buf pr.1, pr.2))) ∧
    (∀ compressed ctx2,
      Context.compress lib ctx data (Int.ofNat data.length) = some compressed →
      ciph ctx compressed = some ([], ctx2) →
      nativeProcessGen ciph lib ctx data = some (FatPointer.buf [], ctx2)) := by
  refine ⟨nativeProcessGen_encode ciph lib ctx data ht, ?_⟩
  intro compressed ctx2 hcp hpp
  rw [nativeProcessGen_encode ciph lib ctx data ht, hcp]
  simp only [Option.bind, hpp]
  rfl

/-- Witness for C7: the encode equation instantiated on the shipped cipher
and codec at a concrete context and input. -/
theorem c7_witness :
    nativeProcessGen Context.process standInDeflate ctxEnc0 [9] =
      (Context.compress standInDeflate ctxEnc0 [9] (Int.ofNat [9].length)).bind
        (fun compressed => (Context.process ctxEnc0 compressed).map
          (fun pr => (FatPointer.buf pr.1, pr.2))) :=
  (c7_encode_order Context.process standInDeflate ctxEnc0 [9] rfl).1

/-- Claim C8: a freshly created context has exactly one codec handle
populated, matching the creation mode; initialization, the debug setter,
the prealloc-size setter and process calls all leave the mode and the
codec selection unchanged (so the invariant is preserved from creation
onward). -/
theorem c8_codec_matches_mode (m : Bool) (ctx : Context) (k v : List Nat)
    (b : Bool) (n : Int) (data : List Nat)
    (h : codecMatchesMode ctx) :
    (codecMatchesMode (createNewContext m) ∧
      (createNewContext m).encryption_mode_toggle = m) ∧
    (sameModeAndCodecs (Context.init_state ctx k v) ctx ∧
      codecMatchesMode (Context.init_state ctx k v)) ∧
    (sameModeAndCodecs (debugCall ctx b) ctx ∧
      codecMatchesMode (debugCall ctx b)) ∧
    (sameModeAndCodecs (preallocSize ctx n) ctx ∧
      codecMatchesMode (preallocSize ctx n)) ∧
    (∀ fp ctx2, nativeProcess ctx data = some (fp, ctx2) →
      sameModeAndCodecs ctx2 ctx ∧ codecMatchesMode ctx2) := by
  refine ⟨⟨?_, ?_⟩, ⟨?_, ?_⟩, ⟨?_, ?_⟩, ⟨?_, ?_⟩, ?_⟩
  · cases m <;> decide
  · cases m <;> rfl
  · exact ⟨rfl, rfl, rfl⟩
  · exact codecMatchesMode_of_same _ _ ⟨rfl, rfl, rfl⟩ h
  · exact ⟨rfl, rfl, rfl⟩
  · exact codecMatchesMode_of_same _ _ ⟨rfl, rfl, rfl⟩ h
  · exact ⟨rfl, rfl, rfl⟩
  · exact codecMatchesMode_of_same _ _ ⟨rfl, rfl, rfl⟩ h
  · intro fp ctx2 hnp
    have hs := nativeProcess_post ctx data fp ctx2 hnp
    exact ⟨hs, codecMatchesMode_of_same _ _ hs h⟩

/-- Witness for C8: the invariant statement instantiated at a concrete
encode context, key/IV material, setter arguments and input. -/
theorem c8_witness :
    codecMatchesMode ctxEnc0 ∧
    ((codecMatchesMode (createNewContext true) ∧
      (createNewContext true).encryption_mode_toggle = true) ∧
    (sameModeAndCodecs (Context.init_state ctxEnc0 [1] [2]) ctxEnc0 ∧
      codecMatchesMode (Context.init_state ctxEnc0 [1] [2])) ∧
    (sameModeAndCodecs (debugCall ctxEnc0 true) ctxEnc0 ∧
      codecMatchesMode (debugCall ctxEnc0 true)) ∧
    (sameModeAndCodecs (preallocSize ctxEnc0 5) ctxEnc0 ∧
      codecMatchesMode (preallocSize ctxEnc0 5)) ∧
    (∀ fp ctx2, nativeProcess ctxEnc0 [3] = some (fp, ctx2) →
      sameModeAndCodecs ctx2 ctxEnc0 ∧ codecMatchesMode ctx2)) :=
  ⟨by decide, c8_codec_matches_mode true ctxEnc0 [1] [2] true 5 [3] (by decide)⟩

/-- Claim C10: the prealloc-size setter accepts a negative 32-bit value
and stores its two's-complement wraparound `2 ^ 64 + n`; a subsequent
decode-path process call whose cipher step succeeds with a non-empty
result passes exactly that stored value to decompression as the
allocation capacity. -/
theorem c10_prealloc_wraparound (ctx : Context) (n : Int)
    (hlo : -(2 ^ 31) ≤ n) (hneg : n < 0) :
    (preallocSize ctx n).prealloc_size = (2 ^ 64 + n).toNat ∧
    (∀ data d ctx2,
      (preallocSize ctx n).encryption_mode_toggle = false →
      Context.process (preallocSize ctx n) data = some (d, ctx2) →
      d.length ≠ 0 →
      nativeProcess (preallocSize ctx n) data =
        (Context.decompress standInDeflate ctx2 d ((2 ^ 64 + n).toNat)).map
          (fun r => (FatPointer.buf r, ctx2))) := by
  have hval : (preallocSize ctx n).prealloc_size = (2 ^ 64 + n).toNat := by
    have h : i32_as_usize n = (2 ^ 64 + n).toNat := by
      unfold i32_as_usize
      omega
    exact h
  refine ⟨hval, ?_⟩
  intro data d ctx2 ht hp hd
  rw [nativeProcess, nativeProcessGen_decode _ _ _ _ ht, hp]
  simp only []
  rw [if_neg hd]
  have h2 : ctx2.prealloc_size = (2 ^ 64 + n).toNat := by
    rw [process_some_ctx _ _ _ _ hp]
    exact hval
  rw [h2]

/-- Witness for C10: setting the prealloc size to the jint `-1` stores
`2 ^ 64 - 1`, and a concrete decode call with a successfully decrypted
non-empty buffer hands that capacity to decompression. -/
theorem c10_witness :
    (preallocSize ctxDec0 (-1)).prealloc_size = ((2 : Int) ^ 64 + (-1)).toNat ∧
    (∀ data d ctx2,
      (preallocSize ctxDec0 (-1)).encryption_mode_toggle = false →
      Context.process (preallocSize ctxDec0 (-1)) data = some (d, ctx2) →
      d.length ≠ 0 →
      nativeProcess (preallocSize ctxDec0 (-1)) data =
        (Context.decompress standInDeflate ctx2 d (((2 : Int) ^ 64 + (-1)).toNat)).map
          (fun r => (FatPointer.buf r, ctx2))) :=
  c10_prealloc_wraparound ctxDec0 (-1) (by norm_num) (by norm_num)

/-- Claim C5: `decompress` allocates a zero-filled buffer of exactly the
requested capacity and attempts decompression into it; when the codec
reports failure it returns the empty result (never a truncated or overrun
one), and on success it returns the buffer truncated to the actual
decompressed length, which never exceeds the capacity.  For the concrete
codec, a capacity smaller than the true decompressed size is such a
failure. -/
theorem c5_decompress_contract (lib : DeflateLib) (ctx : Context)
    (data : List Nat) (cap : Nat)
    (hlib : decompressBounded lib) (hd : ctx.decompressor = some ()) :
    (List.replicate cap (0 : Nat)).length = cap ∧
    (lib.deflate_decompress data (List.replicate cap 0) = none →
      Context.decompress lib ctx data cap = some []) ∧
    (∀ n buf2,
      lib.deflate_decompress data (List.replicate cap 0) = some (n, buf2) →
      Context.decompress lib ctx data cap = some (buf2.take n) ∧
        (buf2.take n).length = n ∧ n ≤ cap) ∧
    (∀ n payload, parseVarint data = some (n, payload) → payload.length = n →
      cap < n → Context.decompress standInDeflate ctx data cap = some []) := by
  refine ⟨List.length_replicate cap 0, ?_, ?_, ?_⟩
  · intro h
    rw [Context.decompress, hd]
    simp only [h]
  · intro n buf2 h
    have hb := hlib data (List.replicate cap 0) n buf2 h
    rw [List.length_replicate] at hb
    rw [Context.decompress, hd]
    simp only [h]
    refine ⟨?_, ?_, hb.1⟩
    · unfold vecResize
      rw [if_pos (by omega)]
    · simp only [List.length_take]
      omega
  · intro n payload hp hlen hcap
    rw [Context.decompress, hd]
    have hdd : standInDeflate.deflate_decompress data (List.replicate cap 0)
        = none := by
      simp only [standInDeflate, hp]
      rw [if_neg (by simp [hlen]; omega)]
    simp only [hdd]

/-- Witness for C5: the contract instantiated on the concrete codec at a
valid 3-byte compressed input and capacity 5. -/
theorem c5_witness :
    (List.replicate 5 (0 : Nat)).length = 5 ∧
    (standInDeflate.deflate_decompress [2, 7, 8] (List.replicate 5 0) = none →
      Context.decompress standInDeflate ctxDec0 [2, 7, 8] 5 = some []) ∧
    (∀ n buf2,
      standInDeflate.deflate_decompress [2, 7, 8] (List.replicate 5 0)
        = some (n, buf2) →
      Context.decompress standInDeflate ctxDec0 [2, 7, 8] 5 = some (buf2.take n) ∧
        (buf2.take n).length = n ∧ n ≤ 5) ∧
    (∀ n payload, parseVarint [2, 7, 8] = some (n, payload) →
      payload.length = n → 5 < n →
      Context.decompress standInDeflate ctxDec0 [2, 7, 8] 5 = some []) :=
  c5_decompress_contract standInDeflate ctxDec0 [2, 7, 8] 5
    standIn_decompressBounded rfl

/-- Claim C3: a process call on an initialized context whose codec handle
matches its mode always yields a result descriptor: every internal failure
is resolved into the empty-result sentinel, and no panic escapes — in
particular the encode path, where compression with a bound-sized buffer
never errors. -/
theorem c3_no_fault_escapes (ctx : Context) (data : List Nat)
    (hk : ctx.key.isSome) (ha : ctx.aes.isSome)
    (hcp : ctx.encryption_mode_toggle = true → ctx.compressor = some ())
    (hdc : ctx.encryption_mode_toggle = false → ctx.decompressor = some ())
    (hsz : data.length < 2 ^ 64) :
    (nativeProcess ctx data).isSome := by
  rcases Option.isSome_iff_exists.mp hk with ⟨kw, hk2⟩
  rcases Option.isSome_iff_exists.mp ha with ⟨⟨k, v⟩, ha2⟩
  rcases ht : ctx.encryption_mode_toggle
  case false =>
    rw [nativeProcess, nativeProcessGen_decode _ _ _ _ ht]
    rcases process_total ctx kw k v data hk2 ha2 with ⟨d, hp⟩
    rw [hp]
    simp only []
    by_cases hz : d.length = 0
    · rw [if_pos hz]
      rfl
    · rw [if_neg hz]
      rcases decompress_total standInDeflate (bumpCtx ctx data) d
          (bumpCtx ctx data).prealloc_size (hdc ht) with ⟨r, hr⟩
      rw [hr]
      rfl
  case true =>
    rw [nativeProcess, nativeProcessGen_encode _ _ _ _ ht]
    rw [compress_standIn ctx data (hcp ht) hsz]
    rcases process_total ctx kw k v (encVarint data.length ++ data) hk2 ha2
      with ⟨o, hp⟩
    simp only [Option.bind, hp]
    rfl

/-- Witness for C3: a concrete initialized encode context and input, where
the call produces a descriptor. -/
theorem c3_witness : (nativeProcess ctxEnc0 [7]).isSome :=
  c3_no_fault_escapes ctxEnc0 [7] (by decide) (by decide)
    (fun _ => rfl) (fun h => by simp [ctxEnc0, enableCrypto, Context.init_state, createNewContext] at h)
    (by norm_num)

theorem nativeProcess_debug_shift (ctx : Context) (b : Bool) (data : List Nat) :
    nativeProcess { ctx with debug := b } data =
      Option.map (fun r => (r.1, { r.2 with debug := b }))
        (nativeProcess ctx data) := by
  by_cases ht : ctx.encryption_mode_toggle = true
  · have ht2 : ({ ctx with debug := b } : Context).encryption_mode_toggle
        = true := ht
    rw [nativeProcess, nativeProcess, nativeProcessGen_encode _ _ _ _ ht2,
      nativeProcessGen_encode _ _ _ _ ht, compress_debug]
    rcases Context.compress standInDeflate ctx data (Int.ofNat data.length)
      with _ | cd
    · rfl
    · simp only [Option.bind, process_debug]
      rcases Context.process ctx cd with _ | ⟨o, c2⟩
      · rfl
      · rfl
  · have ht0 : ctx.encryption_mode_toggle = false := by
      simp only [Bool.not_eq_true] at ht
      exact ht
    have ht2 : ({ ctx with debug := b } : Context).encryption_mode_toggle
        = false := ht0
    rw [nativeProcess, nativeProcess, nativeProcessGen_decode _ _ _ _ ht2,
      nativeProcessGen_decode _ _ _ _ ht0, process_debug]
    rcases Context.process ctx data with _ | ⟨d, c2⟩
    · rfl
    · simp only [Option.map]
      by_cases hz : d.length = 0
      · rw [if_pos hz, if_pos hz]
      · rw [if_neg hz, if_neg hz]
        have hdec : Context.decompress standInDeflate { c2 with debug := b } d
            ({ c2 with debug := b } : Context).prealloc_size =
            Context.decompress standInDeflate c2 d c2.prealloc_size := rfl
        rw [hdec]
        rcases Context.decompress standInDeflate c2 d c2.prealloc_size
          with _ | r
        · rfl
        · rfl

/-- Claim C9: the descriptor returned by a process call — address class,
contents and length, including the failure outcomes — is the same whether
the context's debug flag is true or false; the resulting contexts agree on
everything except the flag itself. -/
theorem c9_debug_invariant (ctx : Context) (data : List Nat) :
    Option.map (fun r => (r.1, { r.2 with debug := false }))
      (nativeProcess { ctx with debug := true } data) =
    Option.map (fun r => (r.1, { r.2 with debug := false }))
      (nativeProcess { ctx with debug := false } data) := by
  rw [nativeProcess_debug_shift ctx true data,
    nativeProcess_debug_shift ctx false data]
  rcases nativeProcess ctx data with _ | ⟨fp, c2⟩
  · rfl
  · rfl

/-- Claim C6 (amended): a decompression failure inside a decode-path
process call yields a zero-length result just like a decryption failure,
but not an identical descriptor: decryption failure short-circuits to the
literal null descriptor (address 0), while decompression failure returns a
freshly produced empty buffer, whose address is the empty vector's
non-null dangling pointer; the two coincide in length (0) only. -/
theorem c6_decompress_failure_zero_length (ctx ctx2 : Context)
    (data d : List Nat)
    (ht : ctx.encryption_mode_toggle = false)
    (hp : Context.process ctx data = some (d, ctx2))
    (hd : d.length ≠ 0)
    (hdec : ctx2.decompressor = some ())
    (hfail : standInDeflate.deflate_decompress d
      (List.replicate ctx2.prealloc_size 0) = none) :
    nativeProcess ctx data = some (FatPointer.buf [], ctx2) ∧
    (FatPointer.buf ([] : List Nat)).size = 0 ∧
    FatPointer.nullPtr.size = 0 ∧
    FatPointer.buf ([] : List Nat) ≠ FatPointer.nullPtr := by
  refine ⟨?_, rfl, rfl, by decide⟩
  rw [nativeProcess, nativeProcessGen_decode _ _ _ _ ht, hp]
  simp only []
  rw [if_neg hd]
  rw [Context.decompress, hdec]
  simp only [hfail]
  rfl

/-- Witness for the amended C6: a concrete decode context with zero
preallocation on a valid 10-byte ciphertext — decryption succeeds with 2
plaintext bytes, decompression fails for lack of capacity, and the call
returns the fresh empty (non-null) buffer. -/
theorem c6_witness :
    nativeProcess (preallocSize ctxDec0 0)
        [11, 234, 88, 192, 248, 208, 40, 96, 40, 16] =
      some (FatPointer.buf [], bumpCtx (preallocSize ctxDec0 0)
        [11, 234, 88, 192, 248, 208, 40, 96, 40, 16]) ∧
    (FatPointer.buf ([] : List Nat)).size = 0 ∧
    FatPointer.nullPtr.size = 0 ∧
    FatPointer.buf ([] : List Nat) ≠ FatPointer.nullPtr :=
  c6_decompress_failure_zero_length (preallocSize ctxDec0 0)
    (bumpCtx (preallocSize ctxDec0 0)
      [11, 234, 88, 192, 248, 208, 40, 96, 40, 16])
    [11, 234, 88, 192, 248, 208, 40, 96, 40, 16] [1, 5]
    rfl (by decide) (by decide) rfl (by decide)

/-- Claim C6 counterexample: the two failure modes do not return the same
descriptor.  On the same zero-preallocation decode context, a valid
ciphertext that fails at decompression returns a fresh empty buffer
(non-null address, length 0), while a short undecryptable input returns
the literal null descriptor (address 0, length 0). -/
theorem c6_counterexample :
    nativeProcess (preallocSize ctxDec0 0)
        [11, 234, 88, 192, 248, 208, 40, 96, 40, 16] =
      some (FatPointer.buf [], bumpCtx (preallocSize ctxDec0 0)
        [11, 234, 88, 192, 248, 208, 40, 96, 40, 16]) ∧
    nativeProcess (preallocSize ctxDec0 0) [1, 2] =
      some (FatPointer.nullPtr, bumpCtx (preallocSize ctxDec0 0) [1, 2]) ∧
    FatPointer.buf ([] : List Nat) ≠ FatPointer.nullPtr :=
  ⟨by decide, by decide, by decide⟩

theorem roundtrip_core (A B : Context) (kwA kwB k v D : List Nat)
    (hAt : A.encryption_mode_toggle = true)
    (hAk : A.key = some kwA) (hAa : A.aes = some (k, v))
    (hAc : A.compressor = some ())
    (hBt : B.encryption_mode_toggle = false)
    (hBk : B.key = some kwB) (hBa : B.aes = some (k, v))
    (hctr : B.counter = A.counter)
    (hsz : D.length < 2 ^ 64) :
    nativeProcess A D = some (FatPointer.buf
      (xorKs (keystream k v A.counter) 0 ((encVarint D.length ++ D) ++
        macTag k v A.counter (encVarint D.length ++ D))),
      bumpCtx A (encVarint D.length ++ D)) ∧
    Context.process B (xorKs (keystream k v A.counter) 0
        ((encVarint D.length ++ D) ++
          macTag k v A.counter (encVarint D.length ++ D))) =
      some (encVarint D.length ++ D,
        bumpCtx B (xorKs (keystream k v A.counter) 0
          ((encVarint D.length ++ D) ++
            macTag k v A.counter (encVarint D.length ++ D)))) := by
  constructor
  · rw [nativeProcess, nativeProcessGen_encode _ _ _ _ hAt,
      compress_standIn A D hAc hsz]
    simp only [Option.bind]
    rw [process_encode A kwA k v (encVarint D.length ++ D) hAt hAk hAa]
    rfl
  · exact process_decode_roundtrip B kwB k v (encVarint D.length ++ D)
      A.counter hBt hBk hBa hctr

/-- Claim C1 (amended): for every byte sequence `D` and key/IV pair,
processing `D` through an Encode-mode context and feeding the result to a
Decode-mode context with the same key/IV and lockstep counter returns
exactly `D`, provided `D` is no longer than the Decode context's
`prealloc_size` (and fits the boundary size type); a longer `D` makes the
decompression preallocation insufficient and the decode call returns the
empty failure result instead. -/
theorem c1_roundtrip_within_prealloc (A B : Context) (kwA kwB k v D : List Nat)
    (hAt : A.encryption_mode_toggle = true)
    (hAk : A.key = some kwA) (hAa : A.aes = some (k, v))
    (hAc : A.compressor = some ())
    (hBt : B.encryption_mode_toggle = false)
    (hBk : B.key = some kwB) (hBa : B.aes = some (k, v))
    (hBd : B.decompressor = some ())
    (hctr : B.counter = A.counter)
    (hcap : D.length ≤ B.prealloc_size)
    (hsz : D.length < 2 ^ 64) :
    ∃ E A2 B2, nativeProcess A D = some (FatPointer.buf E, A2) ∧
      nativeProcess B E = some (FatPointer.buf D, B2) := by
  obtain ⟨h1, h2⟩ := roundtrip_core A B kwA kwB k v D hAt hAk hAa hAc hBt
    hBk hBa hctr hsz
  have h3 : nativeProcess B (xorKs (keystream k v A.counter) 0
      ((encVarint D.length ++ D) ++
        macTag k v A.counter (encVarint D.length ++ D))) =
      some (FatPointer.buf D, bumpCtx B (xorKs (keystream k v A.counter) 0
        ((encVarint D.length ++ D) ++
          macTag k v A.counter (encVarint D.length ++ D)))) := by
    rw [nativeProcess, nativeProcessGen_decode _ _ _ _ hBt, h2]
    simp only []
    have hne : ¬((encVarint D.length ++ D).length = 0) := by
      have hpos := encVarint_length_pos D.length
      simp only [List.length_append]
      omega
    rw [if_neg hne]
    have hd2 : (bumpCtx B (xorKs (keystream k v A.counter) 0
        ((encVarint D.length ++ D) ++
          macTag k v A.counter (encVarint D.length ++ D)))).decompressor
        = some () := hBd
    have hcap2 : D.length ≤ (bumpCtx B (xorKs (keystream k v A.counter) 0
        ((encVarint D.length ++ D) ++
          macTag k v A.counter (encVarint D.length ++ D)))).prealloc_size := hcap
    rw [decompress_standIn_ok _ D.length _ D hd2 rfl hcap2]
    rfl
  exact ⟨_, _, _, h1, h3⟩

/-- Witness for the amended C1: the round trip on a concrete 3-byte
payload through freshly initialized encode/decode contexts sharing key
`[1, 2]` and IV `[3]`. -/
theorem c1_witness :
    ∃ E A2 B2, nativeProcess ctxEnc0 [10, 20, 30] = some (FatPointer.buf E, A2) ∧
      nativeProcess ctxDec0 E = some (FatPointer.buf [10, 20, 30], B2) :=
  c1_roundtrip_within_prealloc ctxEnc0 ctxDec0 [1, 2] [1, 2] [1, 2] [3]
    [10, 20, 30] rfl rfl rfl rfl rfl rfl rfl rfl rfl (by decide) (by decide)

/-- Claim C1 counterexample: with freshly created and initialized contexts
(so the Decode side has the default 2 MiB preallocation) and a payload of
2 MiB + 1 bytes, the decode call returns the empty buffer, not `D` — the
unqualified round-trip claim fails for payloads longer than the decode
context's preallocation. -/
theorem c1_counterexample :
    ∃ E A2 B2,
      nativeProcess ctxEnc0 (List.replicate 2097153 42) =
        some (FatPointer.buf E, A2) ∧
      nativeProcess ctxDec0 E = some (FatPointer.buf [], B2) ∧
      List.replicate 2097153 42 ≠ ([] : List Nat) := by
  obtain ⟨h1, h2⟩ := roundtrip_core ctxEnc0 ctxDec0 [1, 2] [1, 2] [1, 2] [3]
    (List.replicate 2097153 42) rfl rfl rfl rfl rfl rfl rfl rfl
    (by rw [List.length_replicate]; norm_num)
  have h3 : nativeProcess ctxDec0 (xorKs (keystream [1, 2] [3] ctxEnc0.counter) 0
      ((encVarint (List.replicate 2097153 42).length ++
          List.replicate 2097153 42) ++
        macTag [1, 2] [3] ctxEnc0.counter
          (encVarint (List.replicate 2097153 42).length ++
            List.replicate 2097153 42))) =
      some (FatPointer.buf [],
        bumpCtx ctxDec0 (xorKs (keystream [1, 2] [3] ctxEnc0.counter) 0
          ((encVarint (List.replicate 2097153 42).length ++
              List.replicate 2097153 42) ++
            macTag [1, 2] [3] ctxEnc0.counter
              (encVarint (List.replicate 2097153 42).length ++
                List.replicate 2097153 42)))) := by
    rw [nativeProcess, nativeProcessGen_decode _ _ _ _ rfl, h2]
    simp only []
    have hne : ¬((encVarint (List.replicate 2097153 42).length ++
        List.replicate 2097153 42).length = 0) := by
      have hpos := encVarint_length_pos (List.replicate 2097153 42).length
      simp only [List.length_append]
      omega
    rw [if_neg hne]
    have hd2 : (bumpCtx ctxDec0 (xorKs (keystream [1, 2] [3] ctxEnc0.counter) 0
        ((encVarint (List.replicate 2097153 42).length ++
            List.replicate 2097153 42) ++
          macTag [1, 2] [3] ctxEnc0.counter
            (encVarint (List.replicate 2097153 42).length ++
              List.replicate 2097153 42)))).decompressor = some () := rfl
    have hcap2 : (bumpCtx ctxDec0 (xorKs (keystream [1, 2] [3] ctxEnc0.counter) 0
        ((encVarint (List.replicate 2097153 42).length ++
            List.replicate 2097153 42) ++
          macTag [1, 2] [3] ctxEnc0.counter
            (encVarint (List.replicate 2097153 42).length ++
              List.replicate 2097153 42)))).prealloc_size <
        (List.replicate 2097153 42).length := by
      have hp2 : (bumpCtx ctxDec0 (xorKs (keystream [1, 2] [3] ctxEnc0.counter) 0
          ((encVarint (List.replicate 2097153 42).length ++
              List.replicate 2097153 42) ++
            macTag [1, 2] [3] ctxEnc0.counter
              (encVarint (List.replicate 2097153 42).length ++
                List.replicate 2097153 42)))).prealloc_size = 2097152 := rfl
      rw [hp2, List.length_replicate]
      omega
    rw [decompress_standIn_small _ (List.replicate 2097153 42).length _
      (List.replicate 2097153 42) hd2 rfl hcap2]
    rfl
  have hne2 : List.replicate 2097153 42 ≠ ([] : List Nat) := by
    intro hcontra
    have hlen := congrArg List.length hcontra
    rw [List.length_replicate] at hlen
    simp at hlen
  exact ⟨_, _, _, h1, h3, hne2⟩
